import Mathlib

/-!
Verification development for a single-asset backtesting engine
(`backtester.py`) and its Kelly-criterion position-sizing module
(`risk/kelly_criterion.py`).

Modelling conventions:
* Timestamps are natural numbers; a pandas `Series` indexed by time is a
  `List (Nat × ℚ)` of (timestamp, value) pairs with the data-model invariant
  of strictly increasing (hence duplicate-free) timestamps where relevant.
* Float values are modelled by exact rationals `ℚ`.  A float that can be
  NaN is modelled by `Option ℚ` with `none` standing for NaN (pandas skips
  NaN entries; numpy propagates them).  Values of the form `a * sqrt b`
  (annualised volatility, Sharpe ratio) are modelled symbolically by `FV`.
* A Python function that can raise is modelled with `Except Err`; the
  constructors of `Err` name the exceptions the code can actually raise.
-/

/-- Exceptions the embedded code can raise: `valueError` models the Python
`ValueError` raised by `kelly_fraction_win_loss` on a domain violation;
`emptyArrayError` models the numpy error raised by `np.percentile` when the
array obtained from `returns.dropna()` is empty. -/
inductive Err where
  | valueError : Err
  | emptyArrayError : Err
deriving DecidableEq

/-- Symbolic value of the float expressions `std * sqrt(252)` and
`(mean - rf) / std * sqrt(252)`: `FV.val a b` stands for the real number
`a * sqrt b`, and `FV.nan` stands for the float NaN (which arises when the
sample standard deviation is computed over fewer than two entries). -/
inductive FV where
  | nan : FV
  | val : ℚ → ℚ → FV
deriving DecidableEq

/-- Interpretation of an `FV` as a real number: `FV.val a b` denotes
`a * Real.sqrt b`; NaN denotes no real number. -/
def FV.interp : FV → ℝ → Prop
  | FV.nan, _ => False
  | FV.val a b, x => x = (a : ℝ) * Real.sqrt (b : ℝ)

/-- Model of `Series.dropna()`: the sub-list of non-NaN entries. -/
def dropnaQ (r : List (Option ℚ)) : List ℚ := r.filterMap id

/-- Model of `Series.mean()` (pandas skips NaN entries; the mean of zero
usable entries is NaN). -/
def meanS (r : List (Option ℚ)) : Option ℚ :=
  if (dropnaQ r).length = 0 then none
  else some ((dropnaQ r).sum / ((dropnaQ r).length : ℚ))

/-- Model of the sample variance underlying `Series.std(ddof=1)` (pandas
skips NaN entries; with fewer than two usable entries the result is NaN).
`sampleVarS r = some v` means `Series.std(ddof=1)` is the float `sqrt v`. -/
def sampleVarS (r : List (Option ℚ)) : Option ℚ :=
  if (dropnaQ r).length ≤ 1 then none
  else some (((dropnaQ r).map (fun x =>
      (x - (dropnaQ r).sum / (((dropnaQ r).length : ℚ))) ^ 2)).sum /
    (((dropnaQ r).length : ℚ) - 1))

/-- Model of `(1 + returns).prod() - 1` (pandas `prod` skips NaN entries and
returns 1 on an empty product), the `total_return` metric. -/
def totalReturnS (r : List (Option ℚ)) : ℚ :=
  ((dropnaQ r).map (fun x => 1 + x)).prod - 1

/-- Model of `(1 + returns.mean()) ** 252 - 1`, the `annualized_return`
metric; NaN when the mean is NaN. -/
def annReturnS (r : List (Option ℚ)) : Option ℚ :=
  (meanS r).map (fun m => (1 + m) ^ (252 : ℕ) - 1)

/-- Model of `returns.std(ddof=1) * np.sqrt(252)`, the `annualized_volatility`
metric: `sqrt v * sqrt 252 = 1 * sqrt (v * 252)`. -/
def annVolS (r : List (Option ℚ)) : FV :=
  match sampleVarS r with
  | none => FV.nan
  | some v => FV.val 1 (v * 252)

/-- Model of the Sharpe-ratio computation
`sharpe = (mean - rf) / std * sqrt(252) if ann_volatility != 0 else 0.0`.
Over the reals `ann_volatility = sqrt (v * 252)` is zero exactly when the
sample variance `v` is zero, so the `else` branch yields the float `0.0`
(`FV.val 0 1`).  When the standard deviation is NaN (fewer than two usable
entries) the float comparison `NaN != 0` is true and the formula branch
produces NaN.  Otherwise the formula gives
`(mean - rf) / sqrt v * sqrt 252 = (mean - rf) * sqrt (252 / v)`. -/
def sharpeFV (r : List (Option ℚ)) (risk_free_rate : ℚ) : FV :=
  match sampleVarS r, meanS r with
  | some v, some m =>
      if v = 0 then FV.val 0 1 else FV.val (m - risk_free_rate) (252 / v)
  | _, _ => FV.nan

/-- Model of `Series.cumprod()` with pandas `skipna=True` semantics: a NaN
entry stays NaN in the output, every other entry is the running product of
the non-NaN entries seen so far (starting from the accumulator `acc`). -/
def cumprodSkip (acc : ℚ) : List (Option ℚ) → List (Option ℚ)
  | [] => []
  | none :: t => none :: cumprodSkip acc t
  | some x :: t => some (acc * x) :: cumprodSkip (acc * x) t

/-- Model of `Series.cummax()` with pandas `skipna=True` semantics: a NaN
entry stays NaN in the output, every other entry is the running maximum of
the non-NaN entries seen so far (`acc = none` before the first one). -/
def cummaxSkip (acc : Option ℚ) : List (Option ℚ) → List (Option ℚ)
  | [] => []
  | none :: t => none :: cummaxSkip acc t
  | some x :: t =>
      match acc with
      | none => some x :: cummaxSkip (some x) t
      | some a => some (max a x) :: cummaxSkip (some (max a x)) t

/-- Model of `Series.min()` with pandas `skipna=True` semantics: the minimum
of the non-NaN entries, NaN when there are none. -/
def minSkip : List (Option ℚ) → Option ℚ
  | [] => none
  | none :: t => minSkip t
  | some x :: t =>
      match minSkip t with
      | none => some x
      | some y => some (min x y)

/-- Pointwise model of the float expression `(w - p) / p`: NaN when either
operand is NaN or when `p = 0` (in the drawdown computation `p = 0` forces
`w = 0`, so the float division is `0/0 = NaN`). -/
def ddOf (w p : Option ℚ) : Option ℚ :=
  match w, p with
  | some w, some p => if p = 0 then none else some ((w - p) / p)
  | _, _ => none

/-- Model of the `max_drawdown` metric:
`cumulative = (1 + returns).cumprod()`, `peak = cumulative.cummax()`,
`drawdowns = (cumulative - peak) / peak`, `max_drawdown = drawdowns.min()`. -/
def maxDrawdownS (r : List (Option ℚ)) : Option ℚ :=
  let W := cumprodSkip 1 (r.map (Option.map (fun x => 1 + x)))
  let P := cummaxSkip none W
  minSkip (List.zipWith ddOf W P)

/-- Insertion step of a stable ascending sort. -/
def insertSorted (x : ℚ) : List ℚ → List ℚ
  | [] => [x]
  | y :: t => if x ≤ y then x :: y :: t else y :: insertSorted x t

/-- Ascending sort of a list of rationals (insertion sort). -/
def sortQ (l : List ℚ) : List ℚ := l.foldr insertSorted []

/-- Model of `np.percentile(xs, 5)` with the default linear-interpolation
method: sort the data, set `h = (n - 1) * 5 / 100 = (n - 1) / 20`, and
interpolate between the order statistics at positions `floor h` and
`floor h + 1` with fraction `h - floor h`.  Since `h ≥ 0`,
`floor h = (n - 1) / 20` in natural division and the fraction is
`((n - 1) % 20) / 20`.  On an empty array numpy raises, modelled by
`none`. -/
def npPercentile5 (xs : List ℚ) : Option ℚ :=
  match xs with
  | [] => none
  | y :: ys =>
      let s := sortQ (y :: ys)
      let n := ys.length + 1
      let lo : ℕ := (n - 1) / 20
      let frac : ℚ := ((n - 1) % 20 : ℕ) / 20
      some (if lo + 1 < n then s.getD lo 0 + frac * (s.getD (lo + 1) 0 - s.getD lo 0)
            else s.getD (n - 1) 0)

/-- Metrics dictionary returned by `compute_performance_metrics`.  The
`sharpe_ratio` key of the source is the field `sharpe`. -/
structure Metrics where
  total_return : ℚ
  annualized_return : Option ℚ
  annualized_volatility : FV
  sharpe : FV
  max_drawdown : Option ℚ
  value_at_risk : ℚ
deriving DecidableEq

/-- Model of `compute_performance_metrics(returns, risk_free_rate)`.  Every
metric is the direct translation of the source formula; the only exception
path of the source is `np.percentile(returns.dropna(), 5)`, which raises on
an empty array, so the function fails exactly when `returns` has no usable
entry. -/
def compute_performance_metrics (returns : List (Option ℚ))
    (risk_free_rate : ℚ) : Except Err Metrics :=
  match npPercentile5 (dropnaQ returns) with
  | none => Except.error Err.emptyArrayError
  | some v =>
      Except.ok ⟨totalReturnS returns, annReturnS returns, annVolS returns,
        sharpeFV returns risk_free_rate, maxDrawdownS returns, v⟩

/-- Convenience view of `compute_performance_metrics` as an `Option`. -/
def metricsOf (returns : List (Option ℚ)) (risk_free_rate : ℚ) : Option Metrics :=
  match compute_performance_metrics returns risk_free_rate with
  | Except.ok m => some m
  | Except.error _ => none

/-- Model of `kelly_fraction_win_loss(p, b)`: raises `ValueError` unless
`0 < p < 1` and `b > 0`, and otherwise returns `(b*p - (1-p)) / b`. -/
def kelly_fraction_win_loss (p b : ℚ) : Except Err ℚ :=
  if ¬(0 < p ∧ p < 1) then Except.error Err.valueError
  else if b ≤ 0 then Except.error Err.valueError
  else Except.ok ((b * p - (1 - p)) / b)

/-- Model of `kelly_fraction_continuous(returns)`:
`mu = np.mean(r)`, `var = np.var(r)` (population variance), returning `0.0`
when `var == 0` and `mu / var` otherwise.  On an empty sequence numpy
produces NaN for both `mu` and `var`; the comparison `NaN == 0` is false and
the function RETURNS the float NaN (`Except.ok none`) — it raises nothing. -/
def kelly_fraction_continuous (returns : List ℚ) : Except Err (Option ℚ) :=
  if returns.length = 0 then Except.ok none
  else
    let mu := returns.sum / (returns.length : ℚ)
    let v := (returns.map (fun x => (x - mu) ^ 2)).sum / (returns.length : ℚ)
    Except.ok (if v = 0 then some 0 else some (mu / v))

/-- Model of `self.signals.reindex(self.prices.index).fillna(0)`: the result
is indexed by exactly `idx`, each timestamp carrying the signal value found
at it (pandas reindex requires a duplicate-free signal index) or `0` when
the timestamp is absent from the signals. -/
def reindexFill0 (signals : List (Nat × ℚ)) (idx : List Nat) : List (Nat × ℚ) :=
  idx.map (fun t => (t, (signals.lookup t).getD 0))

/-- Model of `prices.pct_change().fillna(0)` on the value column: the first
entry (NaN before `fillna`) becomes `0`, entry `t > 0` is
`(price[t] - price[t-1]) / price[t-1]`. -/
def pctChangeFill0 : List ℚ → List ℚ
  | [] => []
  | p :: rest => 0 :: List.zipWith (fun prev cur => (cur - prev) / prev) (p :: rest) rest

/-- Running product `acc * x₁, acc * x₁ * x₂, …`, the model of
`Series.cumprod()` on a NaN-free series. -/
def cumprodQ (acc : ℚ) : List ℚ → List ℚ
  | [] => []
  | x :: t => (acc * x) :: cumprodQ (acc * x) t

/-- Result dictionary of `Backtester.run`: equity curve, strategy returns,
aligned signals and the metrics dictionary. -/
structure RunResult where
  equity_curve : List (Nat × ℚ)
  strategy_returns : List (Nat × ℚ)
  signals : List (Nat × ℚ)
  metrics : Metrics
deriving DecidableEq

/-- Model of `Backtester.run`.  The dataclass fields `prices`, `signals`,
`initial_capital` and `transaction_cost` are passed as arguments
(`transaction_cost` is declared by the dataclass but never read by `run`).
The body performs no validation: it aligns the signals, derives returns,
multiplies, compounds, and calls `compute_performance_metrics`, whose numpy
percentile call is the only statement that can raise. -/
def Backtester.run (prices signals : List (Nat × ℚ))
    (initial_capital : ℚ) (transaction_cost : ℚ) : Except Err RunResult :=
  let idx := prices.map Prod.fst
  let sig := reindexFill0 signals idx
  let rets := pctChangeFill0 (prices.map Prod.snd)
  let strat := List.zipWith (fun s x => s * x) (sig.map Prod.snd) rets
  let equity := (cumprodQ 1 (strat.map (fun x => 1 + x))).map (fun w => w * initial_capital)
  match compute_performance_metrics (strat.map some) 0 with
  | Except.error e => Except.error e
  | Except.ok m => Except.ok ⟨idx.zip equity, idx.zip strat, sig, m⟩

/-- True when an `Except` carries a normally returned value. -/
def runIsOk (e : Except Err RunResult) : Bool :=
  match e with
  | Except.ok _ => true
  | Except.error _ => false

/-- Running maximum of a NaN-free list given the maximum `a` seen so far
(proof-side companion of `cummaxSkip` on NaN-free input). -/
def cummaxQ (a : ℚ) : List ℚ → List ℚ
  | [] => []
  | x :: t => max a x :: cummaxQ (max a x) t

/-- Minimum of a NaN-free list as an `Option` (proof-side companion of
`minSkip` on NaN-free input). -/
def minQ : List ℚ → Option ℚ
  | [] => none
  | x :: t =>
      match minQ t with
      | none => some x
      | some y => some (min x y)

/-! Helper lemmas shared by the claim theorems. -/

lemma dropnaQ_map_some (l : List ℚ) : dropnaQ (l.map some) = l := by
  induction l with
  | nil => rfl
  | cons x t ih =>
      simp only [dropnaQ, List.map_cons, List.filterMap_cons, id] at ih ⊢
      rw [ih]

lemma npPercentile5_cons (x : ℚ) (t : List ℚ) :
    ∃ q, npPercentile5 (x :: t) = some q := ⟨_, rfl⟩

lemma compute_ok (r : List (Option ℚ)) (rf : ℚ) (h : dropnaQ r ≠ []) :
    ∃ v, npPercentile5 (dropnaQ r) = some v ∧
      compute_performance_metrics r rf =
        Except.ok ⟨totalReturnS r, annReturnS r, annVolS r, sharpeFV r rf,
          maxDrawdownS r, v⟩ := by
  obtain ⟨x, t, hxt⟩ : ∃ x t, dropnaQ r = x :: t := by
    cases hh : dropnaQ r with
    | nil => exact absurd hh h
    | cons a b => exact ⟨a, b, rfl⟩
  obtain ⟨q, hq⟩ := npPercentile5_cons x t
  refine ⟨q, by rw [hxt]; exact hq, ?_⟩
  unfold compute_performance_metrics
  rw [hxt, hq]

lemma pctChangeFill0_length (l : List ℚ) : (pctChangeFill0 l).length = l.length := by
  cases l with
  | nil => rfl
  | cons p rest => simp [pctChangeFill0, List.length_zipWith]

lemma reindexFill0_map_fst (signals : List (Nat × ℚ)) (idx : List Nat) :
    (reindexFill0 signals idx).map Prod.fst = idx := by
  rw [reindexFill0, List.map_map]
  exact List.map_id idx

lemma reindexFill0_length (signals : List (Nat × ℚ)) (idx : List Nat) :
    (reindexFill0 signals idx).length = idx.length := by
  simp [reindexFill0]

/-- C10: the transaction_cost parameter is declared but never read by
`Backtester.run`, so any two values of it produce identical results. -/
theorem c10_transaction_cost_ignored (prices signals : List (Nat × ℚ))
    (initial_capital c1 c2 : ℚ) :
    Backtester.run prices signals initial_capital c1 =
      Backtester.run prices signals initial_capital c2 := rfl

/-- C7: `kelly_fraction_win_loss(p, b)` raises its domain-violation error
(the Python `ValueError`, the spec's `DomainError`) exactly when `p ≤ 0`,
`p ≥ 1` or `b ≤ 0`; otherwise it returns `(b*p - (1-p)) / b`; in particular
it returns `0` at `(1/2, 1)`, `1/5` at `(3/5, 1)`, and raises at `p = 0`,
`p = 1` and `b = 0`. -/
theorem c7_kelly_win_loss_domain (p b : ℚ) :
    ((p ≤ 0 ∨ 1 ≤ p ∨ b ≤ 0) ↔
      kelly_fraction_win_loss p b = Except.error Err.valueError)
    ∧ (0 < p → p < 1 → 0 < b →
        kelly_fraction_win_loss p b = Except.ok ((b * p - (1 - p)) / b))
    ∧ kelly_fraction_win_loss (1/2) 1 = Except.ok 0
    ∧ kelly_fraction_win_loss (3/5) 1 = Except.ok (1/5)
    ∧ kelly_fraction_win_loss 0 1 = Except.error Err.valueError
    ∧ kelly_fraction_win_loss 1 1 = Except.error Err.valueError
    ∧ kelly_fraction_win_loss (1/2) 0 = Except.error Err.valueError := by
  refine ⟨?_, ?_, ?_, ?_, ?_, ?_, ?_⟩
  · by_cases hA : 0 < p ∧ p < 1
    · by_cases hb : b ≤ 0
      · unfold kelly_fraction_win_loss
        rw [if_neg (not_not_intro hA), if_pos hb]
        simp only [iff_true]
        exact Or.inr (Or.inr hb)
      · unfold kelly_fraction_win_loss
        rw [if_neg (not_not_intro hA), if_neg hb]
        simp only [reduceCtorEq, iff_false, not_or, not_le]
        exact ⟨hA.1, hA.2, lt_of_not_le hb⟩
    · unfold kelly_fraction_win_loss
      rw [if_pos hA]
      simp only [iff_true]
      push_neg at hA
      rcases le_or_lt p 0 with h | h
      · exact Or.inl h
      · exact Or.inr (Or.inl (hA h))
  · intro hp hp1 hb
    unfold kelly_fraction_win_loss
    rw [if_neg (not_not_intro ⟨hp, hp1⟩), if_neg (not_le.mpr hb)]
  · norm_num [kelly_fraction_win_loss]
  · norm_num [kelly_fraction_win_loss]
  · norm_num [kelly_fraction_win_loss]
  · norm_num [kelly_fraction_win_loss]
  · norm_num [kelly_fraction_win_loss]

theorem c7_witness :
    kelly_fraction_win_loss (3/5) 2 = Except.ok ((2 * (3/5) - (1 - 3/5)) / 2) :=
  (c7_kelly_win_loss_domain (3/5) 2).2.1 (by norm_num) (by norm_num) (by norm_num)

/-- C8: `kelly_fraction_continuous` on a non-empty return list yields
`mean / variance` (population variance) when the variance is nonzero and
exactly `0.0` when it is zero; in particular `0.0` on ten copies of `0.01`. -/
theorem c8_kelly_continuous (r : List ℚ) :
    (r ≠ [] →
      (((r.map (fun x => (x - r.sum / (r.length : ℚ)) ^ 2)).sum / (r.length : ℚ)) ≠ 0 →
        kelly_fraction_continuous r =
          Except.ok (some ((r.sum / (r.length : ℚ)) /
            ((r.map (fun x => (x - r.sum / (r.length : ℚ)) ^ 2)).sum / (r.length : ℚ)))))
      ∧ (((r.map (fun x => (x - r.sum / (r.length : ℚ)) ^ 2)).sum / (r.length : ℚ)) = 0 →
        kelly_fraction_continuous r = Except.ok (some 0)))
    ∧ kelly_fraction_continuous (List.replicate 10 (1/100)) = Except.ok (some 0) := by
  constructor
  · intro hne
    have hlen : ¬(r.length = 0) := by simpa using hne
    constructor
    · intro hv
      unfold kelly_fraction_continuous
      rw [if_neg hlen]
      simp only [if_neg hv]
    · intro hv
      unfold kelly_fraction_continuous
      rw [if_neg hlen]
      simp only [if_pos hv]
  · norm_num [kelly_fraction_continuous, List.replicate, List.sum_cons]

theorem c8_witness :
    kelly_fraction_continuous [1/10, 3/10] = Except.ok (some 20)
    ∧ kelly_fraction_continuous [5/7, 5/7] = Except.ok (some 0) := by
  have h1 := ((c8_kelly_continuous [1/10, 3/10]).1 (by simp)).1 (by norm_num)
  have h2 := ((c8_kelly_continuous [5/7, 5/7]).1 (by simp)).2 (by norm_num)
  norm_num at h1
  exact ⟨h1, h2⟩

/-- C3 counterexample: on an empty return sequence
`kelly_fraction_continuous` does not fail at all — numpy's `mean` and `var`
evaluate to NaN, `NaN == 0` is false, and the function returns the float
NaN (`Except.ok none`), contradicting the claim that it fails with an
`EmptyInput` error and returns no value. -/
theorem c3_counterexample :
    kelly_fraction_continuous [] = Except.ok none := rfl

/-- C3 (amended): `compute_performance_metrics` does fail when the return
series has zero usable entries — the `np.percentile` call raises on the
empty array — but `kelly_fraction_continuous` on an empty sequence returns
the float NaN instead of failing. -/
theorem c3_degenerate_inputs (r : List (Option ℚ)) (rf : ℚ) :
    (dropnaQ r = [] →
      compute_performance_metrics r rf = Except.error Err.emptyArrayError)
    ∧ kelly_fraction_continuous [] = Except.ok none := by
  constructor
  · intro h
    unfold compute_performance_metrics
    rw [h]
    rfl
  · rfl

theorem c3_witness :
    compute_performance_metrics [none] 0 = Except.error Err.emptyArrayError ∧
      kelly_fraction_continuous [] = Except.ok none :=
  ⟨(c3_degenerate_inputs [none] 0).1 (by simp [dropnaQ]),
   (c3_degenerate_inputs [] 0).2⟩

/-- C2 counterexample: `Backtester.run` performs no input validation, so
with `initial_capital = -5` (≤ 0) and a non-empty price series it returns a
result normally instead of failing with `InvalidInput`. -/
theorem c2_counterexample :
    Backtester.run [(0, 100)] [] (-5) 0 = Except.ok
      ⟨[(0, -5)], [(0, 0)], [(0, 0)], ⟨0, some 0, FV.nan, FV.nan, some 0, 0⟩⟩ := by
  norm_num [Backtester.run, reindexFill0, pctChangeFill0, cumprodQ, List.lookup,
    compute_performance_metrics, dropnaQ, npPercentile5, sortQ, insertSorted,
    totalReturnS, annReturnS, annVolS, sharpeFV, maxDrawdownS, meanS, sampleVarS,
    cumprodSkip, cummaxSkip, minSkip, ddOf, List.filterMap_cons, List.filterMap_nil,
    id_eq, Option.getD, List.sum_cons, List.sum_nil, List.prod_cons, List.prod_nil]

lemma strat_length (prices signals : List (Nat × ℚ)) :
    (List.zipWith (fun s x => s * x)
      ((reindexFill0 signals (prices.map Prod.fst)).map Prod.snd)
      (pctChangeFill0 (prices.map Prod.snd))).length = prices.length := by
  rw [List.length_zipWith, List.length_map, reindexFill0_length, pctChangeFill0_length]
  simp

/-- C2 (amended): `Backtester.run` performs no input validation at all.
With a non-empty price series it returns a result for every
`initial_capital` (including non-positive ones); with an empty price series
it fails, but with the numpy empty-array error raised inside the percentile
computation, not with a dedicated `InvalidInput` error (no such check
exists in the code). -/
theorem c2_run_no_validation (prices signals : List (Nat × ℚ)) (cap tc : ℚ) :
    (prices = [] →
      Backtester.run prices signals cap tc = Except.error Err.emptyArrayError)
    ∧ (prices ≠ [] → runIsOk (Backtester.run prices signals cap tc) = true) := by
  constructor
  · rintro rfl
    rfl
  · intro hne
    have hne' : dropnaQ ((List.zipWith (fun s x => s * x)
        ((reindexFill0 signals (prices.map Prod.fst)).map Prod.snd)
        (pctChangeFill0 (prices.map Prod.snd))).map some) ≠ [] := by
      rw [dropnaQ_map_some]
      intro h0
      have hl := strat_length prices signals
      rw [h0] at hl
      exact hne (List.length_eq_zero.mp hl.symm)
    obtain ⟨v, _, hok⟩ := compute_ok _ 0 hne'
    simp only [Backtester.run]
    rw [hok]
    rfl

theorem c2_witness :
    Backtester.run [] [] 5 0 = Except.error Err.emptyArrayError
    ∧ runIsOk (Backtester.run [(0, 100)] [(0, 1)] 50 0) = true :=
  ⟨(c2_run_no_validation [] [] 5 0).1 rfl,
   (c2_run_no_validation [(0, 100)] [(0, 1)] 50 0).2 (by simp)⟩

/-- C6: the `value_at_risk` metric equals `np.percentile(returns.dropna(), 5)`
computed by linear interpolation between order statistics (the percentile is
`none` exactly when the metrics computation fails, so no hypothesis is
needed); at `r = [-0.05, -0.03, 0.0, 0.02, 0.10]` (5 points, rank
`h = 0.05 * 4 = 1/5`) it equals `s₀ + (1/5)(s₁ - s₀) = -23/500`. -/
theorem c6_value_at_risk (r : List (Option ℚ)) (rf : ℚ) :
    Option.map Metrics.value_at_risk (metricsOf r rf) = npPercentile5 (dropnaQ r)
    ∧ Option.map Metrics.value_at_risk
        (metricsOf [some (-1/20), some (-3/100), some 0, some (1/50), some (1/10)] 0)
      = some (-1/20 + (1/5) * ((-3/100) - (-1/20)))
    ∧ Option.map Metrics.value_at_risk
        (metricsOf [some (-1/20), some (-3/100), some 0, some (1/50), some (1/10)] 0)
      = some (-23/500) := by
  refine ⟨?_, ?_, ?_⟩
  · cases h : npPercentile5 (dropnaQ r) with
    | none => simp [metricsOf, compute_performance_metrics, h]
    | some v => simp [metricsOf, compute_performance_metrics, h]
  · norm_num [metricsOf, compute_performance_metrics, dropnaQ, List.filterMap_cons,
      id_eq, npPercentile5, sortQ, insertSorted]
  · norm_num [metricsOf, compute_performance_metrics, dropnaQ, List.filterMap_cons,
      id_eq, npPercentile5, sortQ, insertSorted]

lemma lookup_eq_none_of_not_mem (t : Nat) (l : List (Nat × ℚ))
    (h : t ∉ l.map Prod.fst) : l.lookup t = none := by
  induction l with
  | nil => rfl
  | cons hd tl ih =>
      obtain ⟨k, w⟩ := hd
      simp only [List.map_cons, List.mem_cons, not_or] at h
      rw [List.lookup, beq_eq_false_iff_ne.mpr h.1]
      exact ih h.2

lemma lookup_eq_some_of_mem (t : Nat) (v : ℚ) (l : List (Nat × ℚ))
    (hnd : (l.map Prod.fst).Nodup) (h : (t, v) ∈ l) : l.lookup t = some v := by
  induction l with
  | nil => exact absurd h (List.not_mem_nil _)
  | cons hd tl ih =>
      obtain ⟨k, w⟩ := hd
      simp only [List.map_cons, List.nodup_cons] at hnd
      rcases List.mem_cons.mp h with h1 | h1
      · obtain ⟨rfl, rfl⟩ := Prod.mk.inj h1
        simp [List.lookup]
      · have htk : t ≠ k := by
          rintro rfl
          exact hnd.1 (List.mem_map.mpr ⟨(t, v), h1, rfl⟩)
        rw [List.lookup, beq_eq_false_iff_ne.mpr htk]
        exact ih hnd.2 h1

/-- C9: the aligned position series built inside `Backtester.run` is indexed
by exactly the price series' timestamps (none added, none dropped), carries
`0.0` at every price timestamp absent from the signals, and the original
signal value at every shared timestamp (signal timestamps are duplicate-free
by the data-model invariant; pandas `reindex` rejects duplicate labels). -/
theorem c9_reindex_invariant (idx : List Nat) (signals : List (Nat × ℚ))
    (hnd : (signals.map Prod.fst).Nodup) :
    (reindexFill0 signals idx).map Prod.fst = idx
    ∧ (∀ t, t ∈ idx → t ∉ signals.map Prod.fst →
        (t, (0 : ℚ)) ∈ reindexFill0 signals idx)
    ∧ (∀ t v, t ∈ idx → (t, v) ∈ signals → (t, v) ∈ reindexFill0 signals idx)
    ∧ (∀ q ∈ reindexFill0 signals idx, q.2 = (signals.lookup q.1).getD 0) := by
  refine ⟨reindexFill0_map_fst signals idx, ?_, ?_, ?_⟩
  · intro t ht hmem
    have hl := lookup_eq_none_of_not_mem t signals hmem
    exact List.mem_map.mpr ⟨t, ht, by simp [hl]⟩
  · intro t v ht hmem
    have hl := lookup_eq_some_of_mem t v signals hnd hmem
    exact List.mem_map.mpr ⟨t, ht, by simp [hl]⟩
  · intro q hq
    obtain ⟨t, ht, rfl⟩ := List.mem_map.mp hq
    rfl

theorem c9_witness :
    (reindexFill0 [(1, (5 : ℚ))] [0, 1, 2]).map Prod.fst = [0, 1, 2]
    ∧ (0, (0 : ℚ)) ∈ reindexFill0 [(1, 5)] [0, 1, 2]
    ∧ (1, (5 : ℚ)) ∈ reindexFill0 [(1, 5)] [0, 1, 2] := by
  have H := c9_reindex_invariant [0, 1, 2] [(1, 5)] (by simp)
  exact ⟨H.1, H.2.1 0 (by simp) (by simp), H.2.2.1 1 5 (by simp) (by simp)⟩

lemma zipWith_getD (f : ℚ → ℚ → ℚ) (l₁ l₂ : List ℚ) (i : ℕ)
    (h₁ : i < l₁.length) (h₂ : i < l₂.length) :
    (List.zipWith f l₁ l₂).getD i 0 = f (l₁.getD i 0) (l₂.getD i 0) := by
  induction l₁ generalizing l₂ i with
  | nil => simp at h₁
  | cons a t ih =>
      cases l₂ with
      | nil => simp at h₂
      | cons b s =>
          cases i with
          | zero => rfl
          | succ j =>
              simp only [List.zipWith_cons_cons, List.getD_cons_succ]
              exact ih s j (by simpa using h₁) (by simpa using h₂)

lemma cumprodQ_length (a : ℚ) (l : List ℚ) : (cumprodQ a l).length = l.length := by
  induction l generalizing a with
  | nil => rfl
  | cons x xs ih => simp [cumprodQ, ih]

lemma cumprod_map_getD (l : List ℚ) (a c : ℚ) (t : ℕ) (h : t < l.length) :
    ((cumprodQ a l).map (fun w => w * c)).getD t 0 = a * (l.take (t + 1)).prod * c := by
  induction l generalizing a t with
  | nil => simp at h
  | cons x xs ih =>
      cases t with
      | zero => simp [cumprodQ]
      | succ j =>
          simp only [cumprodQ, List.map_cons, List.getD_cons_succ, List.take_succ_cons,
            List.prod_cons]
          rw [ih (a * x) j (by simpa using h)]
          ring

lemma pctChangeFill0_getD_zero (l : List ℚ) (h : l ≠ []) :
    (pctChangeFill0 l).getD 0 0 = 0 := by
  obtain ⟨p, rest, rfl⟩ := List.exists_cons_of_ne_nil h
  rfl

lemma pctChangeFill0_getD_succ (l : List ℚ) (t : ℕ) (h0 : 0 < t) (h : t < l.length) :
    (pctChangeFill0 l).getD t 0 = (l.getD t 0 - l.getD (t - 1) 0) / l.getD (t - 1) 0 := by
  have hl : l ≠ [] := by rintro rfl; simp at h
  obtain ⟨p, rest, rfl⟩ := List.exists_cons_of_ne_nil hl
  cases t with
  | zero => exact absurd h0 (by simp)
  | succ j =>
      have hj : j < rest.length := by simpa using h
      simp only [pctChangeFill0, List.getD_cons_succ, Nat.succ_sub_one]
      rw [zipWith_getD _ _ _ j (by simp; omega) hj]

lemma totalReturnS_map_some (l : List ℚ) :
    totalReturnS (l.map some) = (l.map (fun x => 1 + x)).prod - 1 := by
  rw [totalReturnS, dropnaQ_map_some]

/-- C1: `Backtester.run` derives the strategy exactly as specified: the
aligned positions are multiplied pointwise with the price returns, whose
first entry is `0` and whose entry `t > 0` is
`(price[t] - price[t-1]) / price[t-1]`; the equity curve at every index `t`
is `initial_capital` times the running product of `1 + strategy_return` up
to `t`; and the reported `total_return` compounds the strategy returns.  On
prices `[100, 110, 121]` with signals `[0, 1, 1]` and capital `1000`, the
strategy returns are `[0, 1/10, 1/10]`, the equity curve is
`[1000, 1100, 1210]`, and `total_return = 21/100`. -/
theorem c1_run_strategy_derivation (prices signals : List (Nat × ℚ)) (cap tc : ℚ)
    (hne : prices ≠ []) :
    (∃ res, Backtester.run prices signals cap tc = Except.ok res ∧
      res.strategy_returns.map Prod.snd =
        List.zipWith (fun s x => s * x)
          ((reindexFill0 signals (prices.map Prod.fst)).map Prod.snd)
          (pctChangeFill0 (prices.map Prod.snd)) ∧
      (pctChangeFill0 (prices.map Prod.snd)).getD 0 0 = 0 ∧
      (∀ t, 0 < t → t < prices.length →
        (pctChangeFill0 (prices.map Prod.snd)).getD t 0 =
          ((prices.map Prod.snd).getD t 0 - (prices.map Prod.snd).getD (t - 1) 0) /
            (prices.map Prod.snd).getD (t - 1) 0) ∧
      (∀ t, t < prices.length →
        (res.equity_curve.map Prod.snd).getD t 0 =
          cap * (((res.strategy_returns.map Prod.snd).take (t + 1)).map
            (fun x => 1 + x)).prod) ∧
      res.metrics.total_return =
        ((res.strategy_returns.map Prod.snd).map (fun x => 1 + x)).prod - 1)
    ∧ (∃ res,
        Backtester.run [(0, 100), (1, 110), (2, 121)] [(0, 0), (1, 1), (2, 1)] 1000 0
          = Except.ok res ∧
        res.strategy_returns = [(0, 0), (1, 1/10), (2, 1/10)] ∧
        res.equity_curve = [(0, 1000), (1, 1100), (2, 1210)] ∧
        res.metrics.total_return = 21/100) := by
  constructor
  · set strat := List.zipWith (fun s x => s * x)
      ((reindexFill0 signals (prices.map Prod.fst)).map Prod.snd)
      (pctChangeFill0 (prices.map Prod.snd)) with hstrat
    have hlen : strat.length = prices.length := strat_length prices signals
    have hne' : dropnaQ (strat.map some) ≠ [] := by
      rw [dropnaQ_map_some]
      intro h0
      rw [h0] at hlen
      exact hne (List.length_eq_zero.mp hlen.symm)
    obtain ⟨v, hv, hok⟩ := compute_ok (strat.map some) 0 hne'
    have hrun : Backtester.run prices signals cap tc = Except.ok
        ⟨(prices.map Prod.fst).zip
           ((cumprodQ 1 (strat.map (fun x => 1 + x))).map (fun w => w * cap)),
         (prices.map Prod.fst).zip strat,
         reindexFill0 signals (prices.map Prod.fst),
         ⟨totalReturnS (strat.map some), annReturnS (strat.map some),
          annVolS (strat.map some), sharpeFV (strat.map some) 0,
          maxDrawdownS (strat.map some), v⟩⟩ := by
      simp only [Backtester.run]
      rw [← hstrat, hok]
    have hs : ((prices.map Prod.fst).zip strat).map Prod.snd = strat :=
      List.map_snd_zip _ _ (by simp [hlen])
    have heqlen : ((cumprodQ 1 (strat.map (fun x => 1 + x))).map
        (fun w => w * cap)).length = prices.length := by
      rw [List.length_map, cumprodQ_length, List.length_map, hlen]
    have he : ((prices.map Prod.fst).zip
        ((cumprodQ 1 (strat.map (fun x => 1 + x))).map (fun w => w * cap))).map Prod.snd
        = (cumprodQ 1 (strat.map (fun x => 1 + x))).map (fun w => w * cap) :=
      List.map_snd_zip _ _ (by simp [heqlen])
    refine ⟨_, hrun, hs, pctChangeFill0_getD_zero _ (by simpa using hne), ?_, ?_, ?_⟩
    · intro t ht0 ht
      exact pctChangeFill0_getD_succ (prices.map Prod.snd) t ht0 (by simpa using ht)
    · intro t ht
      show (((prices.map Prod.fst).zip
          ((cumprodQ 1 (strat.map (fun x => 1 + x))).map (fun w => w * cap))).map
            Prod.snd).getD t 0 = _
      rw [he, hs, cumprod_map_getD _ _ _ t (by simpa [hlen] using ht), List.map_take]
      ring
    · show totalReturnS (strat.map some) = _
      rw [hs, totalReturnS_map_some]
  · have hsig : reindexFill0 [(0, (0 : ℚ)), (1, 1), (2, 1)] [0, 1, 2]
        = [(0, 0), (1, 1), (2, 1)] := by
      simp [reindexFill0, List.lookup]
    refine ⟨⟨[(0, 1000), (1, 1100), (2, 1210)],
       [(0, 0), (1, 1/10), (2, 1/10)],
       [(0, 0), (1, 1), (2, 1)],
       ⟨21/100, some ((16/15) ^ (252 : ℕ) - 1), FV.val 1 (21/25), FV.val (1/15) 75600,
        some 0, 1/100⟩⟩, ?_, rfl, rfl, rfl⟩
    simp only [Backtester.run, List.map_cons, List.map_nil]
    rw [hsig]
    norm_num [pctChangeFill0, cumprodQ,
      compute_performance_metrics, dropnaQ, npPercentile5, sortQ, insertSorted,
      totalReturnS, annReturnS, annVolS, sharpeFV, maxDrawdownS, meanS, sampleVarS,
      cumprodSkip, cummaxSkip, minSkip, ddOf, List.filterMap_cons, List.filterMap_nil,
      id_eq, Option.getD, List.sum_cons, List.sum_nil, List.prod_cons, List.prod_nil,
      -Prod.mk_zero_zero, -Prod.mk_one_one]

theorem c1_witness :
    ∃ res, Backtester.run [(0, 100), (1, 110), (2, 121)] [(0, 0), (1, 1), (2, 1)] 1000 0
        = Except.ok res ∧
      res.strategy_returns = [(0, 0), (1, 1/10), (2, 1/10)] ∧
      res.equity_curve = [(0, 1000), (1, 1100), (2, 1210)] ∧
      res.metrics.total_return = 21/100 :=
  (c1_run_strategy_derivation [(0, 100), (1, 110), (2, 121)] [(0, 0), (1, 1), (2, 1)]
    1000 0 (by simp)).2

lemma dropna_ne_of_var_some (r : List (Option ℚ)) (v : ℚ) (h : sampleVarS r = some v) :
    dropnaQ r ≠ [] := by
  intro h0
  simp [sampleVarS, h0] at h

lemma meanS_isSome_of_dropna_ne (r : List (Option ℚ)) (h : dropnaQ r ≠ []) :
    ∃ m, meanS r = some m := by
  rw [meanS, if_neg (fun hl => h (List.length_eq_zero.mp hl))]
  exact ⟨_, rfl⟩

lemma sampleVarS_nonneg (r : List (Option ℚ)) (v : ℚ) (h : sampleVarS r = some v) :
    0 ≤ v := by
  by_cases hc : (dropnaQ r).length ≤ 1
  · rw [sampleVarS, if_pos hc] at h
    exact absurd h (by simp)
  · rw [sampleVarS, if_neg hc] at h
    rw [← Option.some.inj h]
    apply div_nonneg
    · apply List.sum_nonneg
      intro x hx
      obtain ⟨y, _, rfl⟩ := List.mem_map.mp hx
      exact sq_nonneg _
    · have h2 : 2 ≤ (dropnaQ r).length := by omega
      have : (2 : ℚ) ≤ ((dropnaQ r).length : ℚ) := by exact_mod_cast h2
      linarith

lemma metricsOf_eq (r : List (Option ℚ)) (rf : ℚ) (h : dropnaQ r ≠ []) :
    ∃ v, metricsOf r rf = some ⟨totalReturnS r, annReturnS r, annVolS r, sharpeFV r rf,
      maxDrawdownS r, v⟩ := by
  obtain ⟨v, _, hok⟩ := compute_ok r rf h
  refine ⟨v, ?_⟩
  unfold metricsOf
  rw [hok]

/-- C4: when the sample standard deviation of the return series is zero
(constant returns, at least two usable entries) the Sharpe ratio produced by
`compute_performance_metrics` is exactly the float `0.0` — never NaN or a
division error; when the sample variance `v` is nonzero the Sharpe ratio is
the float value `(mean - rf) / sqrt v * sqrt 252`. -/
theorem c4_sharpe_guard (r : List (Option ℚ)) (rf : ℚ) :
    (sampleVarS r = some 0 →
      Option.map Metrics.sharpe (metricsOf r rf) = some (FV.val 0 1)
      ∧ FV.interp (FV.val 0 1) 0)
    ∧ (∀ v m, sampleVarS r = some v → v ≠ 0 → meanS r = some m →
      Option.map Metrics.sharpe (metricsOf r rf) = some (FV.val (m - rf) (252 / v))
      ∧ FV.interp (FV.val (m - rf) (252 / v))
          (((m - rf : ℚ) : ℝ) / Real.sqrt ((v : ℚ) : ℝ) * Real.sqrt 252)) := by
  constructor
  · intro hv
    obtain ⟨m, hm⟩ := meanS_isSome_of_dropna_ne r (dropna_ne_of_var_some r 0 hv)
    obtain ⟨vv, hmet⟩ := metricsOf_eq r rf (dropna_ne_of_var_some r 0 hv)
    rw [hmet]
    constructor
    · simp [sharpeFV, hv, hm]
    · simp [FV.interp]
  · intro v m hv hvne hm
    obtain ⟨vv, hmet⟩ := metricsOf_eq r rf (dropna_ne_of_var_some r v hv)
    rw [hmet]
    have hvpos : (0 : ℝ) < (v : ℝ) := by
      rcases lt_or_eq_of_le (sampleVarS_nonneg r v hv) with h | h
      · exact_mod_cast h
      · exact absurd h.symm hvne
    constructor
    · simp [sharpeFV, hv, hm, hvne]
    · simp only [FV.interp]
      push_cast
      rw [Real.sqrt_div (by norm_num) ((v : ℚ) : ℝ)]
      ring

theorem c4_witness :
    (Option.map Metrics.sharpe (metricsOf [some 1, some 1] 0) = some (FV.val 0 1)
      ∧ FV.interp (FV.val 0 1) 0)
    ∧ (Option.map Metrics.sharpe (metricsOf [some 0, some (1/2)] 0)
        = some (FV.val ((1/4 : ℚ) - 0) (252 / (1/8)))
      ∧ FV.interp (FV.val ((1/4 : ℚ) - 0) (252 / (1/8)))
          ((((1/4 : ℚ) - 0 : ℚ) : ℝ) / Real.sqrt (((1/8 : ℚ) : ℚ) : ℝ) * Real.sqrt 252)) :=
  ⟨(c4_sharpe_guard [some 1, some 1] 0).1
    (by norm_num [sampleVarS, dropnaQ, List.filterMap_cons, id_eq]),
   (c4_sharpe_guard [some 0, some (1/2)] 0).2 (1/8) (1/4)
    (by norm_num [sampleVarS, dropnaQ, List.filterMap_cons, id_eq])
    (by norm_num)
    (by norm_num [meanS, dropnaQ, List.filterMap_cons, id_eq])⟩

lemma cumprodSkip_map_some (a : ℚ) (l : List ℚ) :
    cumprodSkip a (l.map some) = (cumprodQ a l).map some := by
  induction l generalizing a with
  | nil => rfl
  | cons x t ih => simp [cumprodSkip, cumprodQ, ih]

lemma cummaxSkip_some_map_some (a : ℚ) (l : List ℚ) :
    cummaxSkip (some a) (l.map some) = (cummaxQ a l).map some := by
  induction l generalizing a with
  | nil => rfl
  | cons x t ih => simp [cummaxSkip, cummaxQ, ih]

lemma cummaxSkip_none_cons (x : ℚ) (l : List ℚ) :
    cummaxSkip none ((x :: l).map some) = (cummaxQ x (x :: l)).map some := by
  simp [cummaxSkip, cummaxQ, cummaxSkip_some_map_some, max_self]

lemma zipWith_ddOf_map_some (w : List ℚ) :
    ∀ p : List ℚ, (∀ y ∈ p, y ≠ 0) →
      List.zipWith ddOf (w.map some) (p.map some)
        = (List.zipWith (fun wi pi => (wi - pi) / pi) w p).map some := by
  induction w with
  | nil => intro p _; rfl
  | cons a t ih =>
      intro p hp
      cases p with
      | nil => rfl
      | cons b s =>
          simp only [List.map_cons, List.zipWith_cons_cons, ddOf]
          rw [if_neg (hp b (by simp)), ih s (fun y hy => hp y (by simp [hy]))]

lemma minSkip_map_some (l : List ℚ) : minSkip (l.map some) = minQ l := by
  induction l with
  | nil => rfl
  | cons x t ih => simp [minSkip, minQ, ih]

lemma cumprodQ_pos (l : List ℚ) (hl : ∀ x ∈ l, 0 < x) :
    ∀ a, 0 < a → ∀ w ∈ cumprodQ a l, 0 < w := by
  induction l with
  | nil => intro a _ w hw; simp [cumprodQ] at hw
  | cons x t ih =>
      intro a ha w hw
      have hx : 0 < x := hl x (by simp)
      simp only [cumprodQ, List.mem_cons] at hw
      rcases hw with rfl | hw'
      · exact mul_pos ha hx
      · exact ih (fun y hy => hl y (by simp [hy])) (a * x) (mul_pos ha hx) w hw'

lemma cummaxQ_pos (l : List ℚ) (hl : ∀ x ∈ l, 0 < x) :
    ∀ a, 0 < a → ∀ y ∈ cummaxQ a l, 0 < y := by
  induction l with
  | nil => intro a _ y hy; simp [cummaxQ] at hy
  | cons x t ih =>
      intro a ha y hy
      have hx : 0 < x := hl x (by simp)
      have hp : 0 < max a x := lt_of_lt_of_le hx (le_max_right a x)
      simp only [cummaxQ, List.mem_cons] at hy
      rcases hy with rfl | hy'
      · exact hp
      · exact ih (fun z hz => hl z (by simp [hz])) (max a x) hp y hy'

lemma dd_bounds (l : List ℚ) (hl : ∀ x ∈ l, 0 < x) :
    ∀ a, 0 < a →
      ∀ d ∈ List.zipWith (fun wi pi => (wi - pi) / pi) l (cummaxQ a l),
        -1 < d ∧ d ≤ 0 := by
  induction l with
  | nil => intro a _ d hd; simp at hd
  | cons x t ih =>
      intro a ha d hd
      have hx : 0 < x := hl x (by simp)
      have hp : 0 < max a x := lt_of_lt_of_le hx (le_max_right a x)
      simp only [cummaxQ, List.zipWith_cons_cons, List.mem_cons] at hd
      rcases hd with rfl | hd'
      · have heq : (x - max a x) / max a x = x / max a x - 1 := by
          rw [sub_div, div_self (ne_of_gt hp)]
        rw [heq]
        constructor
        · have h0 : 0 < x / max a x := div_pos hx hp
          linarith
        · have h1 : x / max a x ≤ 1 := (div_le_one hp).mpr (le_max_right a x)
          linarith
      · exact ih (fun y hy => hl y (by simp [hy])) (max a x) hp d hd'

lemma dd_zero_iff (l : List ℚ) (hl : ∀ x ∈ l, 0 < x) :
    ∀ a, 0 < a →
      ((∀ d ∈ List.zipWith (fun wi pi => (wi - pi) / pi) l (cummaxQ a l), d = 0)
        ↔ cummaxQ a l = l) := by
  induction l with
  | nil => intro a _; simp [cummaxQ]
  | cons x t ih =>
      intro a ha
      have hx : 0 < x := hl x (by simp)
      have hp : 0 < max a x := lt_of_lt_of_le hx (le_max_right a x)
      have iht := ih (fun y hy => hl y (by simp [hy]))
      simp only [cummaxQ, List.zipWith_cons_cons, List.forall_mem_cons, List.cons.injEq]
      constructor
      · rintro ⟨h0, hrest⟩
        have hmx : max a x = x := by
          rcases div_eq_zero_iff.mp h0 with h | h
          · linarith [sub_eq_zero.mp h]
          · exact absurd h (ne_of_gt hp)
        refine ⟨hmx, ?_⟩
        rw [hmx] at hrest ⊢
        exact (iht x hx).mp hrest
      · rintro ⟨hmx, hrest⟩
        constructor
        · rw [hmx, sub_self, zero_div]
        · rw [hmx] at hrest ⊢
          exact (iht x hx).mpr hrest

lemma minQ_spec (l : List ℚ) (h : l ≠ []) :
    ∃ m, minQ l = some m ∧ m ∈ l ∧ ∀ x ∈ l, m ≤ x := by
  induction l with
  | nil => exact absurd rfl h
  | cons x t ih =>
      cases t with
      | nil => exact ⟨x, rfl, by simp, by simp⟩
      | cons y s =>
          obtain ⟨m, hm, hmem, hle⟩ := ih (by simp)
          refine ⟨min x m, by rw [minQ, hm], ?_, ?_⟩
          · rcases le_total x m with hc | hc
            · simp [min_eq_left hc]
            · rw [min_eq_right hc]
              exact List.mem_cons_of_mem _ hmem
          · intro z hz
            rcases List.mem_cons.mp hz with rfl | hz'
            · exact min_le_left _ _
            · exact le_trans (min_le_right _ _) (hle z hz')

lemma map_some_inj (l1 l2 : List ℚ) : l1.map some = l2.map some ↔ l1 = l2 := by
  constructor
  · intro h
    have := List.map_injective_iff.mpr (fun a b hab => Option.some.inj hab) h
    exact this
  · intro h
    rw [h]

/-- C5 counterexample: the claimed range `[-1, 0]` fails for a return series
with a period loss worse than -100% (reachable, since positions may be
leveraged or short and the strategy return is `position * price_return`):
at returns `[-1/2, -2]` the wealth index is `[1/2, -1/2]`, the running peak
is `[1/2, 1/2]`, and `max_drawdown = -2 < -1`. -/
theorem c5_counterexample :
    Option.map Metrics.max_drawdown (metricsOf [some (-(1 : ℚ)/2), some (-2)] 0)
      = some (some (-2))
    ∧ ¬(-1 ≤ (-2 : ℚ)) := by
  constructor
  · norm_num [metricsOf, compute_performance_metrics, dropnaQ, List.filterMap_cons,
      id_eq, npPercentile5, sortQ, insertSorted, maxDrawdownS, cumprodSkip, cummaxSkip,
      minSkip, ddOf]
  · norm_num

/-- C5 (amended): for every non-empty return series all of whose returns
exceed -100% (so the wealth index stays positive — the regime the spec's
claim describes), the `max_drawdown` produced by
`compute_performance_metrics` lies in `[-1, 0]`, and it equals `0` exactly
when the wealth index never dips below its running peak (peak series equals
wealth series). -/
theorem c5_max_drawdown_bounds (r : List ℚ) (rf : ℚ) (hne : r ≠ [])
    (hgt : ∀ x ∈ r, -1 < x) :
    ∃ d, Option.map Metrics.max_drawdown (metricsOf (r.map some) rf) = some (some d)
      ∧ -1 ≤ d ∧ d ≤ 0
      ∧ (d = 0 ↔
          cummaxSkip none (cumprodSkip 1 ((r.map some).map (Option.map (fun x => 1 + x))))
            = cumprodSkip 1 ((r.map some).map (Option.map (fun x => 1 + x)))) := by
  have hmapmap : (r.map some).map (Option.map (fun x => 1 + x))
      = (r.map (fun x => 1 + x)).map some := by
    rw [List.map_map, List.map_map]
    rfl
  have hposl : ∀ x ∈ r.map (fun x => 1 + x), 0 < x := by
    intro x hx
    obtain ⟨y, hy, rfl⟩ := List.mem_map.mp hx
    have := hgt y hy
    linarith
  obtain ⟨x0, w', hw⟩ : ∃ x0 w', cumprodQ 1 (r.map (fun x => 1 + x)) = x0 :: w' := by
    obtain ⟨p, rest, rfl⟩ := List.exists_cons_of_ne_nil hne
    exact ⟨_, _, rfl⟩
  have hwpos : ∀ y ∈ x0 :: w', 0 < y := by
    rw [← hw]
    exact cumprodQ_pos _ hposl 1 one_pos
  have hx0 : 0 < x0 := hwpos x0 (by simp)
  have hppos : ∀ y ∈ cummaxQ x0 (x0 :: w'), 0 < y := cummaxQ_pos _ hwpos x0 hx0
  have hW : cumprodSkip 1 ((r.map some).map (Option.map (fun x => 1 + x)))
      = (x0 :: w').map some := by
    rw [hmapmap, cumprodSkip_map_some, hw]
  have hMDD : maxDrawdownS (r.map some)
      = minQ (List.zipWith (fun wi pi => (wi - pi) / pi) (x0 :: w')
          (cummaxQ x0 (x0 :: w'))) := by
    show minSkip (List.zipWith ddOf
        (cumprodSkip 1 ((r.map some).map (Option.map (fun x => 1 + x))))
        (cummaxSkip none (cumprodSkip 1 ((r.map some).map (Option.map (fun x => 1 + x))))))
      = _
    rw [hW, cummaxSkip_none_cons,
      zipWith_ddOf_map_some _ _ (fun y hy => ne_of_gt (hppos y hy)),
      minSkip_map_some]
  obtain ⟨d, hd, hdmem, hdle⟩ := minQ_spec
    (List.zipWith (fun wi pi => (wi - pi) / pi) (x0 :: w') (cummaxQ x0 (x0 :: w')))
    (by simp [cummaxQ])
  have hbounds := dd_bounds (x0 :: w') hwpos x0 hx0
  obtain ⟨v, hmet⟩ := metricsOf_eq (r.map some) rf (by rw [dropnaQ_map_some]; exact hne)
  refine ⟨d, ?_, ?_, ?_, ?_⟩
  · rw [hmet]
    show some (maxDrawdownS (r.map some)) = some (some d)
    rw [hMDD, hd]
  · have h1 := (hbounds d hdmem).1
    linarith
  · exact (hbounds d hdmem).2
  · constructor
    · intro hd0
      have hall : ∀ x ∈ List.zipWith (fun wi pi => (wi - pi) / pi) (x0 :: w')
          (cummaxQ x0 (x0 :: w')), x = 0 := by
        intro x hx
        have h1 := (hbounds x hx).2
        have h2 := hdle x hx
        rw [hd0] at h2
        linarith
      have hPW := (dd_zero_iff (x0 :: w') hwpos x0 hx0).mp hall
      rw [hW, cummaxSkip_none_cons, hPW]
    · intro hPW
      rw [hW, cummaxSkip_none_cons] at hPW
      exact (dd_zero_iff (x0 :: w') hwpos x0 hx0).mpr ((map_some_inj _ _).mp hPW) d hdmem

theorem c5_witness :
    ∃ d, Option.map Metrics.max_drawdown (metricsOf ([(1 : ℚ)/10, -1/20].map some) 0)
        = some (some d)
      ∧ -1 ≤ d ∧ d ≤ 0
      ∧ (d = 0 ↔
          cummaxSkip none
            (cumprodSkip 1 ((([(1 : ℚ)/10, -1/20].map some)).map (Option.map (fun x => 1 + x))))
            = cumprodSkip 1 ((([(1 : ℚ)/10, -1/20].map some)).map (Option.map (fun x => 1 + x)))) :=
  c5_max_drawdown_bounds [1/10, -1/20] 0 (by simp)
    (by intro x hx; simp [List.mem_cons] at hx; rcases hx with rfl | rfl <;> norm_num)
